import Mathlib

/-!
Verification of the document-layout reconstruction core of the
Themendokumentation PDF extractor (`klassenbuch_pdf_parsing.py`).

The Python source is shallowly embedded below: page tokens become a `Word`
structure with rational coordinates, `parse_rows_from_page`,
`_first_dozent` (here `first_dozent`), `parse_header` and `parse_date`
become total Lean functions returning `Except`/`Option` where the Python
raises.  Python's stable `sorted(key=...)` is embedded as a stable
insertion sort, `re.sub(r"\bDozent\b", "", ...)` as an explicit
left-to-right scanner with word-boundary checks, and the two header
regexes as explicit backtracking matchers specialised to those patterns
(leftmost search, greedy `\s+`/`(...)?`, lazy `(.+?)`, MULTILINE `$`).
Characters are treated as ASCII (the claims only involve ASCII text).
-/

namespace Klassenbuch

/-! ## Python-style character and string helpers -/

/-- Python whitespace (`str.split()` / `str.strip()` / regex `\s`). -/
def isWs (c : Char) : Bool :=
  c == ' ' || c == '\t' || c == '\n' || c == '\r' || c == '\x0b' || c == '\x0c'

/-- Regex word character `\w` (ASCII model). -/
def isWordChar (c : Char) : Bool :=
  c.isAlphanum || c == '_'

/-- Python `str.strip()` on a character list. -/
def pyStrip (l : List Char) : List Char :=
  ((l.dropWhile isWs).reverse.dropWhile isWs).reverse

/-- Worker for `pySplit`; `acc` is the current word, reversed. -/
def pySplitAux : List Char → List Char → List (List Char)
  | acc, [] => if acc.isEmpty then [] else [acc.reverse]
  | acc, c :: rest =>
    if isWs c then
      if acc.isEmpty then pySplitAux [] rest
      else acc.reverse :: pySplitAux [] rest
    else pySplitAux (c :: acc) rest

/-- Python `str.split()` (split on whitespace runs, dropping empties). -/
def pySplit (l : List Char) : List (List Char) :=
  pySplitAux [] l

/-- Python `" ".join(...)` on character lists. -/
def joinC : List (List Char) → List Char
  | [] => []
  | [w] => w
  | w :: ws => w ++ ' ' :: joinC ws

/-- Python `" ".join(...)` on strings. -/
def joinStr : List String → String
  | [] => ""
  | [s] => s
  | s :: rest => s ++ " " ++ joinStr rest

/-- The characters of the literal label `"Dozent"`. -/
def dzc : List Char := ['D', 'o', 'z', 'e', 'n', 't']

/-- The right word-boundary check after a matched `Dozent`. -/
def rightBd : List Char → Bool
  | [] => true
  | c :: _ => !isWordChar c

/-- `re.sub(r"\bDozent\b", "", text)`: left-to-right scan over the text,
removing each word-bounded occurrence of `Dozent`.  The flag records
whether the previous character of the original text was a word character
(the left `\b` check). -/
def subD : Bool → List Char → List Char
  | _, [] => []
  | wb, 'D' :: 'o' :: 'z' :: 'e' :: 'n' :: 't' :: rest =>
    if !wb && rightBd rest then subD true rest
    else 'D' :: subD true ('o' :: 'z' :: 'e' :: 'n' :: 't' :: rest)
  | _, c :: rest => c :: subD (isWordChar c) rest

/-! ## Name splitter (`_first_dozent` in the source) -/

/-- The cleaned instructor text: join the band's tokens with spaces, strip
the `Dozent` label (`re.sub`) and surrounding whitespace — source lines
140–142. -/
def cleanedDozentText (raw : List String) : List Char :=
  pyStrip (subD false (joinC (raw.map String.data)))

/-- Source lines 143–159 of `_first_dozent`, operating on the cleaned
text: comma branch with first-name truncation at a repeat of the last
name, else last-word branch.  Returns `(nachname, vorname)`. -/
def splitCore (text : List Char) : String × String :=
  if text = [] then ("", "")
  else if ',' ∈ text then
    let nachname := pyStrip (text.takeWhile (fun c => decide (c ≠ ',')))
    let vwords := pySplit (pyStrip ((text.dropWhile (fun c => decide (c ≠ ','))).drop 1))
    let kept := vwords.takeWhile (fun w => decide (w ≠ nachname))
    (String.mk nachname, String.mk (pyStrip (joinC kept)))
  else
    (String.mk ((pySplit text).getLastD []),
     String.mk (joinC (pySplit text).dropLast))

/-- `_first_dozent` from the source: extract `(nachname, vorname)` from
the instructor band's token list. -/
def first_dozent (raw : List String) : String × String :=
  splitCore (cleanedDozentText raw)

/-- The Name Splitter as worded by the spec (steps 2–4 of §4.4), applied
to the already label-stripped text: empty → `("", "")`; with a comma,
last name is the text before the comma trimmed and the first name is the
words after the comma truncated at the first word equal to the last name;
otherwise the last word is the last name.  Used to compare the source's
`splitCore` against the spec's wording. -/
def specNameSplit (text : List Char) : String × String :=
  if text = [] then ("", "")
  else if ',' ∈ text then
    let nachname := pyStrip (text.takeWhile (fun c => decide (c ≠ ',')))
    let cand := pySplit ((text.dropWhile (fun c => decide (c ≠ ','))).drop 1)
    (String.mk nachname, String.mk (joinC (cand.takeWhile (fun w => decide (w ≠ nachname)))))
  else
    (String.mk ((pySplit text).getLastD []),
     String.mk (joinC (pySplit text).dropLast))

/-- Modelled from the spec (§4.4 step 1): remove the tokens exactly equal
to the literal label `"Dozent"` — and only those tokens — join the
remainder with spaces, then split as in steps 2–4.  This is the claimed
token-level label removal, to be compared with the source's
string-level `re.sub`. -/
def specTokenNameSplit (raw : List String) : String × String :=
  specNameSplit (joinC ((raw.filter (fun t => decide (t ≠ "Dozent"))).map String.data))

example : first_dozent ["Schmidt,", "Anna", "Schmidt"] = ("Schmidt", "Anna") := by decide
example : first_dozent ["Mueller"] = ("Mueller", "") := by decide
example : first_dozent [] = ("", "") := by decide
example : first_dozent ["Dozent,"] = ("", "") := by decide
example : specTokenNameSplit ["Dozent,"] = ("Dozent", "") := by decide
example : first_dozent ["Dozent", "Dozent"] = ("", "") := by decide
example : first_dozent ["08:30"] = ("08:30", "") := by decide
example : first_dozent ["Dozent", "Schmidt,", "Anna"] = ("Schmidt", "Anna") := by decide
example : first_dozent ["Dozentin", "Maier"] = ("Maier", "Dozentin") := by decide
example : first_dozent ["xDozent"] = ("xDozent", "") := by decide
example : first_dozent ["Meyer-Schulz,", "Hans", "Peter", "Meyer-Schulz", "Hans"] =
    ("Meyer-Schulz", "Hans Peter") := by decide
example : first_dozent ["a,b,c"] = ("a", "b,c") := by decide
example : first_dozent [",", "X"] = ("", "X") := by decide
example : first_dozent ["A", ",", "B"] = ("A", "B") := by decide
example : first_dozent ["Dozent:Schmidt"] = (":Schmidt", "") := by decide
example : first_dozent ["DozentDozent"] = ("DozentDozent", "") := by decide

/-! ## Kernel-computable rational arithmetic

Mathlib's `Rat.add`/`Rat.sub`/`Rat.div` do not reduce inside `decide`
proofs, so the embedding uses `mkRat`-based equivalents; `qAdd_eq`,
`qSub_eq` and `qHalf_eq` prove they are the ordinary field operations. -/

/-- Addition on `ℚ` via `mkRat` (equals `a + b`, see `qAdd_eq`). -/
def qAdd (a b : ℚ) : ℚ := mkRat (a.num * b.den + b.num * a.den) (a.den * b.den)

/-- Subtraction on `ℚ` via `mkRat` (equals `a - b`, see `qSub_eq`). -/
def qSub (a b : ℚ) : ℚ := mkRat (a.num * b.den - b.num * a.den) (a.den * b.den)

/-- Halving on `ℚ` via `mkRat` (equals `a / 2`, see `qHalf_eq`). -/
def qHalf (a : ℚ) : ℚ := mkRat a.num (2 * a.den)

theorem qAdd_eq (a b : ℚ) : qAdd a b = a + b := by
  have ha : (a.den : ℚ) ≠ 0 := by exact_mod_cast a.den_nz
  have hb : (b.den : ℚ) ≠ 0 := by exact_mod_cast b.den_nz
  rw [qAdd, Rat.mkRat_eq_div]
  push_cast
  conv_rhs => rw [← Rat.num_div_den a, ← Rat.num_div_den b]
  rw [div_add_div _ _ ha hb]
  congr 1
  ring

theorem qSub_eq (a b : ℚ) : qSub a b = a - b := by
  have ha : (a.den : ℚ) ≠ 0 := by exact_mod_cast a.den_nz
  have hb : (b.den : ℚ) ≠ 0 := by exact_mod_cast b.den_nz
  rw [qSub, Rat.mkRat_eq_div]
  push_cast
  conv_rhs => rw [← Rat.num_div_den a, ← Rat.num_div_den b]
  rw [div_sub_div _ _ ha hb]
  congr 1
  ring

theorem qHalf_eq (a : ℚ) : qHalf a = a / 2 := by
  rw [qHalf, Rat.mkRat_eq_div]
  push_cast
  conv_rhs => rw [← Rat.num_div_den a]
  rw [div_div]
  congr 1
  ring

/-! ## Positioned tokens and the row extraction pipeline
(`parse_rows_from_page` in the source) -/

/-- A positioned text token as produced by `page.extract_words`:
the fields used by the source are `text`, `x0`, `top` and `bottom`. -/
structure Word where
  text : String
  x0 : ℚ
  top : ℚ
  bottom : ℚ
deriving DecidableEq

/-- `COL_STUNDE` x-range (points). -/
def COL_STUNDE : ℚ × ℚ := (30, 74)

/-- `COL_LEHRINHALTE` x-range (points). -/
def COL_LEHRINHALTE : ℚ × ℚ := (74, 359)

/-- `COL_DOZENT` x-range (points). -/
def COL_DOZENT : ℚ × ℚ := (459, 549)

/-- `HEADER_NOISE`: header-row words filtered from the content band. -/
def HEADER_NOISE : List String :=
  ["Stunde", "Lehrinhalte", "Lernformat/-methodik",
   "Lernformat/", "-methodik", "Dozent",
   "Unterrichtsbeginn:", "08:30"]

/-- Python `str.isdigit()` (ASCII model): nonempty and all digits. -/
def isDigitStr (s : String) : Bool :=
  !s.data.isEmpty && s.data.all Char.isDigit

/-- Python `int(...)` on a digit string. -/
def strNat (s : String) : ℕ :=
  s.data.foldl (fun n c => 10 * n + (c.toNat - 48)) 0

/-- The anchor condition of source lines 174–176: `text.isdigit()`,
`1 <= int(text) <= 9`, and `COL_STUNDE[0] <= x0 < COL_STUNDE[1]`. -/
def anchorCond (w : Word) : Bool :=
  isDigitStr w.text && decide (1 ≤ strNat w.text) && decide (strNat w.text ≤ 9)
    && decide (COL_STUNDE.1 ≤ w.x0) && decide (w.x0 < COL_STUNDE.2)

/-- The `(int(text), top)` anchor pairs in original token order
(the list comprehension of source lines 171–177, before sorting). -/
def stunden_raw (ws : List Word) : List (ℕ × ℚ) :=
  ws.filterMap (fun w => if anchorCond w then some (strNat w.text, w.top) else none)

/-- Stable insertion of a pair before the first entry with a key not
smaller than its own. -/
def insertK (a : ℕ × ℚ) : List (ℕ × ℚ) → List (ℕ × ℚ)
  | [] => [a]
  | b :: l => if a.1 ≤ b.1 then a :: b :: l else b :: insertK a l

/-- Python's stable `sorted(..., key=lambda x: x[0])` as a stable
insertion sort (any two stable sorts by the same key agree). -/
def sortK : List (ℕ × ℚ) → List (ℕ × ℚ)
  | [] => []
  | a :: l => insertK a (sortK l)

/-- The sorted anchor list (source line 170–179). -/
def stunden_sorted (ws : List Word) : List (ℕ × ℚ) :=
  sortK (stunden_raw ws)

/-- The deduplication loop of source lines 183–190: keep only the first
occurrence of each slot number, tracked with a `seen` set. -/
def dedupFirst (seen : List ℕ) : List (ℕ × ℚ) → List (ℕ × ℚ)
  | [] => []
  | p :: l => if p.1 ∈ seen then dedupFirst seen l else p :: dedupFirst (p.1 :: seen) l

/-- The deduplicated, slot-sorted anchors used to build the row spans. -/
def stunden_dedup (ws : List Word) : List (ℕ × ℚ) :=
  dedupFirst [] (stunden_sorted ws)

/-- Source lines 192–196: maximum bottom-y among tokens whose bottom is
below the 650 footer cutoff, defaulting to 600. -/
def table_bottom (ws : List Word) : ℚ :=
  (((ws.filter (fun w => decide (w.bottom < 650))).map Word.bottom).max?).getD 600

/-- Source lines 198–203: the per-row `(nr, y_start, y_end)` triples;
`prev` carries the previous anchor's top (`none` for the first row, which
starts 30 units above its anchor), the last row ends at `tb`. -/
def mkBounds (tb : ℚ) : Option ℚ → List (ℕ × ℚ) → List (ℕ × ℚ × ℚ)
  | _, [] => []
  | prev, (nr, top) :: rest =>
    (nr,
     (match prev with
      | none => qSub top 30
      | some p => qHalf (qAdd p top)),
     (match rest with
      | [] => tb
      | (_, t2) :: _ => qHalf (qAdd top t2))) :: mkBounds tb (some top) rest

/-- The row spans computed by the Row Boundary Locator. -/
def boundaries (ws : List Word) : List (ℕ × ℚ × ℚ) :=
  mkBounds (table_bottom ws) none (stunden_dedup ws)

/-- `_words_in_col`: texts of words with `x0 ∈ [x0, x1)` and
`top ∈ [y0, y1)`, in original token order. -/
def words_in_col (ws : List Word) (x0 x1 y0 y1 : ℚ) : List String :=
  (ws.filter (fun w =>
    decide (x0 ≤ w.x0) && decide (w.x0 < x1) && decide (y0 ≤ w.top) && decide (w.top < y1))).map Word.text

/-- The content-band words of one row after denylist filtering
(source lines 208 and 212). -/
def inhalt_words (ws : List Word) (y0 y1 : ℚ) : List String :=
  (words_in_col ws COL_LEHRINHALTE.1 COL_LEHRINHALTE.2 y0 y1).filter
    (fun t => !HEADER_NOISE.contains t)

/-- The instructor-band words of one row (source line 209; note: not
filtered against `HEADER_NOISE`). -/
def dozent_words (ws : List Word) (y0 y1 : ℚ) : List String :=
  words_in_col ws COL_DOZENT.1 COL_DOZENT.2 y0 y1

/-- One extracted lesson row. -/
structure Row where
  stunde : ℕ
  inhalt : String
  dozent_vorname : String
  dozent_nachname : String
deriving DecidableEq

/-- The failure of `parse_rows_from_page` (`ValueError: No stunde numbers
(1-9) found in Stunde column`, named `NoRowsFoundError` by the spec). -/
inductive RowsError where
  | noRows
deriving DecidableEq

instance {ε α : Type} [DecidableEq ε] [DecidableEq α] : DecidableEq (Except ε α) := fun a b =>
  match a, b with
  | .error e, .error f =>
    decidable_of_iff (e = f) ⟨fun h => by rw [h], fun h => by injection h⟩
  | .ok x, .ok y =>
    decidable_of_iff (x = y) ⟨fun h => by rw [h], fun h => by injection h⟩
  | .error _, .ok _ => isFalse (fun h => Except.noConfusion h)
  | .ok _, .error _ => isFalse (fun h => Except.noConfusion h)

/-- The row built for one `(nr, y0, y1)` boundary (source lines 207–221). -/
def mkRow (ws : List Word) (b : ℕ × ℚ × ℚ) : Row :=
  { stunde := b.1,
    inhalt := joinStr (inhalt_words ws b.2.1 b.2.2),
    dozent_vorname := (first_dozent (dozent_words ws b.2.1 b.2.2)).2,
    dozent_nachname := (first_dozent (dozent_words ws b.2.1 b.2.2)).1 }

/-- `parse_rows_from_page`: locate and sort anchors, fail if none,
deduplicate, build row spans, and assemble the rows. -/
def parse_rows_from_page (ws : List Word) : Except RowsError (List Row) :=
  if stunden_sorted ws = [] then .error .noRows
  else .ok ((boundaries ws).map (mkRow ws))

example :
    parse_rows_from_page
      [⟨"5", 40, 500, 510⟩, ⟨"1", 40, 100, 110⟩, ⟨"3", 40, 300, 310⟩] =
    .ok [⟨1, "", "", ""⟩, ⟨3, "", "", ""⟩, ⟨5, "", "", ""⟩] := by decide

example :
    boundaries [⟨"1", 40, 500, 510⟩, ⟨"2", 40, 100, 110⟩] =
    [(1, 470, 300), (2, 300, 510)] := by decide

example :
    parse_rows_from_page [⟨"1", 40, 100, 110⟩, ⟨"08:30", 460, 100, 110⟩] =
    .ok [⟨1, "", "", "08:30"⟩] := by decide

example : parse_rows_from_page [⟨"01", 40, 100, 110⟩] =
    .ok [⟨1, "", "", ""⟩] := by decide

example : parse_rows_from_page [⟨"x", 40, 100, 110⟩] = .error .noRows := by decide

/-! ## Header parsing (`parse_header`, `parse_date` in the source)

The two regexes `DATUM_RE` and `TITEL_RE` are embedded as explicit
matchers with Python `re` semantics specialised to those patterns:
leftmost-position search; `\s*` / `\s+` before a disjoint literal class
never backtracks usefully and is matched greedily; the `\s+` in front of
the lazy `(.+?)` backtracks from the longest whitespace run down; the
optional date-range group is tried before its absence; `$` is MULTILINE
(end of text or before a newline). -/

/-- Regex `\d` (ASCII). -/
def isDig (c : Char) : Bool := c.isDigit

/-- Match `\d{2}\.\d{2}\.\d{4}` at the start of `l`; return the matched
ten characters and the remainder. -/
def dateShapeAt (l : List Char) : Option (List Char × List Char) :=
  match l with
  | d1 :: d2 :: '.' :: m1 :: m2 :: '.' :: y1 :: y2 :: y3 :: y4 :: rest =>
    if isDig d1 && isDig d2 && isDig m1 && isDig m2
        && isDig y1 && isDig y2 && isDig y3 && isDig y4 then
      some ([d1, d2, '.', m1, m2, '.', y1, y2, y3, y4], rest)
    else none
  | _ => none

/-- Match `DATUM_RE` = `Datum:\s*(\d{2}\.\d{2}\.\d{4})` anchored at the
start of `l`; return group 1. -/
def datumAt (l : List Char) : Option (List Char) :=
  if l.take 6 = "Datum:".data then
    (dateShapeAt ((l.drop 6).dropWhile isWs)).map Prod.fst
  else none

/-- `DATUM_RE.search`: leftmost match of `datumAt`. -/
def datumSearch : List Char → Option (List Char)
  | [] => none
  | c :: rest =>
    match datumAt (c :: rest) with
    | some r => some r
    | none => datumSearch rest

/-- MULTILINE `\s*$`: some whitespace prefix can be dropped so that the
position is at the end of the text or just before a newline. -/
def wsDollar : List Char → Bool
  | [] => true
  | c :: rest => c == '\n' || (isWs c && wsDollar rest)

/-- The optional range group `\s+(\d{2}\.\d{2}\.\d{4})-(\d{2}\.\d{2}\.\d{4})?`
followed by `\s*$`, matched greedily at `rest`: returns
`(start, optional end)`.  The `\s+` here is followed by `\d`, so only the
maximal whitespace run can match; the optional end date is tried first. -/
def optGroup (rest : List Char) : Option (List Char × Option (List Char)) :=
  let k := (rest.takeWhile isWs).length
  if k = 0 then none
  else
    match dateShapeAt (rest.drop k) with
    | none => none
    | some (d1, r3) =>
      match r3 with
      | '-' :: r4 =>
        (match dateShapeAt r4 with
         | some (d2, r5) =>
           if wsDollar r5 then some (d1, some d2)
           else if wsDollar r4 then some (d1, none) else none
         | none => if wsDollar r4 then some (d1, none) else none)
      | _ => none

/-- Try to finish the `TITEL_RE` tail at the current split: the optional
range group first (greedy `(?:...)?`), then its absence with `\s*$`.
`tacc` holds the `(.+?)` characters in reverse. -/
def tryTail (tacc m : List Char) :
    Option (List Char × Option (List Char) × Option (List Char)) :=
  match optGroup m with
  | some (d1, d2) => some (tacc.reverse, some d1, d2)
  | none => if wsDollar m then some (tacc.reverse, none, none) else none

/-- The lazy `(.+?)`: starting from the shortest candidate, try to finish
the tail, growing the candidate one (non-newline) character at a time. -/
def lazyDot (tacc : List Char) :
    List Char → Option (List Char × Option (List Char) × Option (List Char))
  | [] => tryTail tacc []
  | c :: m =>
    match tryTail tacc (c :: m) with
    | some r => some r
    | none => if c == '\n' then none else lazyDot (c :: tacc) m

/-- `(.+?)` must consume at least one non-newline character. -/
def startDot (m : List Char) :
    Option (List Char × Option (List Char) × Option (List Char)) :=
  match m with
  | [] => none
  | c :: m1 => if c == '\n' then none else lazyDot [c] m1

/-- The greedy `\s+` before `(.+?)`: try the whitespace run lengths from
`i` down to 1. -/
def wsLoop : ℕ → List Char → Option (List Char × Option (List Char) × Option (List Char))
  | 0, _ => none
  | i + 1, l4 =>
    match startDot (l4.drop (i + 1)) with
    | some r => some r
    | none => wsLoop i l4

/-- Match the tail `\s+(.+?)(?:\s+(date)-(date)?)?\s*$` of `TITEL_RE`
against `l4`. -/
def tailMatch (l4 : List Char) :
    Option (List Char × Option (List Char) × Option (List Char)) :=
  wsLoop ((l4.takeWhile isWs).length) l4

/-- Match `TITEL_RE` anchored at the start of `l`:
`Titel:\s*(LF[-\w]*)\s+(.+?)(?:\s+(date)-(date)?)?\s*$` (MULTILINE).
Returns `(group1, group2, group3, group4)`. -/
def titelAt (l : List Char) :
    Option (List Char × List Char × Option (List Char) × Option (List Char)) :=
  if l.take 6 = "Titel:".data then
    let l2 := (l.drop 6).dropWhile isWs
    if l2.take 2 = "LF".data then
      let l3 := l2.drop 2
      let code := l3.takeWhile (fun c => isWordChar c || c == '-')
      let l4 := l3.dropWhile (fun c => isWordChar c || c == '-')
      match tailMatch l4 with
      | some (t, s, e) => some ('L' :: 'F' :: code, t, s, e)
      | none => none
    else none
  else none

/-- `TITEL_RE.search`: leftmost match of `titelAt`. -/
def titelSearch : List Char →
    Option (List Char × List Char × Option (List Char) × Option (List Char))
  | [] => none
  | c :: rest =>
    match titelAt (c :: rest) with
    | some r => some r
    | none => titelSearch rest

/-- Take at most `maxN` leading digits and return them with the rest. -/
def chompDigits (maxN : ℕ) (l : List Char) : List Char × List Char :=
  let d := (l.takeWhile isDig).take maxN
  (d, l.drop d.length)

/-- Numeric value of a digit-character list. -/
def digitsVal (l : List Char) : ℕ :=
  l.foldl (fun n c => 10 * n + (c.toNat - 48)) 0

/-- Gregorian month length, as validated by `datetime`. -/
def daysInMonth (y m : ℕ) : ℕ :=
  if m = 2 then
    if y % 4 = 0 && (y % 100 ≠ 0 || y % 400 = 0) then 29 else 28
  else if m = 4 || m = 6 || m = 9 || m = 11 then 30
  else 31

/-- Zero-pad a day/month token to two characters (`strftime` output). -/
def pad2 (tok : List Char) : List Char :=
  if tok.length = 1 then '0' :: tok else tok

/-- `parse_date`: `datetime.strptime(raw.strip(), "%d.%m.%Y")` followed by
`strftime("%Y-%m-%d")`.  `%d`/`%m` take one or two digits, `%Y` exactly
four, the whole string must be consumed, and the values must form a valid
calendar date (month 1–12, day within the month, year at least 1);
otherwise `strptime`/`datetime` raises `ValueError`, modelled as `none`. -/
def parse_date (raw : List Char) : Option (List Char) :=
  let s := pyStrip raw
  match chompDigits 2 s with
  | ([], _) => none
  | (dd, r1) =>
    match r1 with
    | '.' :: r2 =>
      match chompDigits 2 r2 with
      | ([], _) => none
      | (mm, r3) =>
        match r3 with
        | '.' :: r4 =>
          match chompDigits 4 r4 with
          | (yy, r5) =>
            if yy.length = 4 && r5.isEmpty then
              let d := digitsVal dd
              let m := digitsVal mm
              let y := digitsVal yy
              if 1 ≤ m && m ≤ 12 && 1 ≤ d && d ≤ daysInMonth y m && 1 ≤ y then
                some (yy ++ '-' :: (pad2 mm ++ '-' :: pad2 dd))
              else none
            else none
        | _ => none
    | _ => none

/-- The failures of `parse_header`: the two `ValueError`s raised on a
missing pattern (named `HeaderParseError("date missing")` and
`HeaderParseError("title missing")` by the spec), and the distinct
`ValueError` raised by `datetime.strptime` when a matched date token is
not a valid calendar date. -/
inductive HeaderErr where
  | dateMissing
  | titleMissing
  | badDate
deriving DecidableEq

/-- The parsed header record returned by `parse_header`. -/
structure Header where
  datum : String
  lernfeld_id : String
  titel : String
  start_datum : Option String
  end_datum : Option String
deriving DecidableEq

/-- `parse_header`: search both regexes, fail on a missing date pattern
first, then on a missing title pattern, then convert the dates in the
order the Python dict literal evaluates them (datum, start, end) and trim
the title. -/
def parse_header (text : String) : Except HeaderErr Header :=
  match datumSearch text.data with
  | none => .error .dateMissing
  | some draw =>
    match titelSearch text.data with
    | none => .error .titleMissing
    | some (lf, titel, sraw, eraw) =>
      match parse_date draw with
      | none => .error .badDate
      | some iso =>
        match (match sraw with
               | none => Except.ok (none : Option (List Char))
               | some r =>
                 match parse_date r with
                 | none => Except.error HeaderErr.badDate
                 | some i => Except.ok (some i)) with
        | .error e => .error e
        | .ok sIso =>
          match (match eraw with
                 | none => Except.ok (none : Option (List Char))
                 | some r =>
                   match parse_date r with
                   | none => Except.error HeaderErr.badDate
                   | some i => Except.ok (some i)) with
          | .error e => .error e
          | .ok eIso =>
            .ok { datum := String.mk iso,
                  lernfeld_id := String.mk lf,
                  titel := String.mk (pyStrip titel),
                  start_datum := sIso.map String.mk,
                  end_datum := eIso.map String.mk }

example : parse_date "05.03.2024".data = some "2024-03-05".data := by decide

example :
    parse_header "Datum: 05.03.2024 ... Titel: LF12 Grundlagen 01.03.2024-05.04.2024" =
    .ok { datum := "2024-03-05", lernfeld_id := "LF12", titel := "Grundlagen",
          start_datum := some "2024-03-01", end_datum := some "2024-04-05" } := by decide

example : parse_header "" = .error .dateMissing := by decide

example : parse_header "Datum: 05.03.2024" = .error .titleMissing := by decide

example :
    parse_header "Datum: 31.02.2024 Titel: LF12 Grundlagen" = .error .badDate := by decide

/-! Sanity checks of the `TITEL_RE` matcher against CPython `re`
behaviour on edge cases (checked externally against Python 3). -/

example : titelSearch "Titel: LF12 X 01.02.2024 Y".data =
    some ("LF12".data, "X 01.02.2024 Y".data, none, none) := by decide
example : titelSearch "Titel: LF12 X 01.02.2024-".data =
    some ("LF12".data, "X".data, some "01.02.2024".data, none) := by decide
example : titelSearch "Titel: LF12   ".data =
    some ("LF12".data, [' '], none, none) := by decide
example : titelSearch "Titel: LF12 A\nB".data =
    some ("LF12".data, "A".data, none, none) := by decide
example : titelSearch "Titel: LF12 \n X".data =
    some ("LF12".data, "X".data, none, none) := by decide
example : titelSearch "Titel: LF-A8b Foo Bar 01.01.2020-".data =
    some ("LF-A8b".data, "Foo Bar".data, some "01.01.2020".data, none) := by decide
example : titelSearch "Titel: LF12 Grundlagen 01.03.2024-05.04.2024 extra".data =
    some ("LF12".data, "Grundlagen 01.03.2024-05.04.2024 extra".data, none, none) := by decide
example : titelSearch "Titel: LF12 Grundlagen 01.03.2024-05.04.2024\nmore".data =
    some ("LF12".data, "Grundlagen".data, some "01.03.2024".data, some "05.04.2024".data) := by decide
example : titelSearch "Titel: LFX".data = none := by decide
example : titelSearch "Titel: lf12 T".data = none := by decide
example : titelSearch "Titel:LF12 T".data =
    some ("LF12".data, "T".data, none, none) := by decide
example : titelSearch "A Titel: LF1 one Titel: LF2 two".data =
    some ("LF1".data, "one Titel: LF2 two".data, none, none) := by decide
example : titelSearch "Titel: LF12 G\t01.03.2024-05.04.2024".data =
    some ("LF12".data, "G".data, some "01.03.2024".data, some "05.04.2024".data) := by decide
example : titelSearch "Titel: LF1 T 01.01.2000- 02.02.2000".data =
    some ("LF1".data, "T 01.01.2000- 02.02.2000".data, none, none) := by decide
example : titelSearch "Titel: LF1 T 01.01.2000-x".data =
    some ("LF1".data, "T 01.01.2000-x".data, none, none) := by decide
example : titelSearch "Titel: LF12 \n".data = none := by decide
example : titelSearch "Titel: LF12  X".data =
    some ("LF12".data, "X".data, none, none) := by decide
example : titelSearch "Titel: LF12-abc_X T".data =
    some ("LF12-abc_X".data, "T".data, none, none) := by decide
example : titelSearch "Titel: LF1 T 01.01.2000 -02.02.2000".data =
    some ("LF1".data, "T 01.01.2000 -02.02.2000".data, none, none) := by decide
example : titelSearch "Titel: LF1 T\n01.01.2000-02.02.2000".data =
    some ("LF1".data, "T".data, some "01.01.2000".data, some "02.02.2000".data) := by decide
example : titelSearch "Titel: LF1 a b 01.01.2000-02.02.2000\nTitel: LF2 c".data =
    some ("LF1".data, "a b".data, some "01.01.2000".data, some "02.02.2000".data) := by decide
example : titelSearch "Titel: LF12  spaced  out ".data =
    some ("LF12".data, "spaced  out".data, none, none) := by decide
example : datumSearch "xDatum:  9 Datum: 01.01.2000".data =
    some "01.01.2000".data := by decide
example : datumSearch "Datum: 123.45.6789".data = none := by decide
example : datumSearch "Datum: 05.03.20245".data = some "05.03.2024".data := by decide
example : datumSearch "Datum: \n 05.03.2024".data = some "05.03.2024".data := by decide

/-! ## Lemmas about the stable sort and the dedup loop -/

theorem insertK_mem (a x : ℕ × ℚ) (l : List (ℕ × ℚ)) (h : x ∈ insertK a l) :
    x = a ∨ x ∈ l := by
  induction l with
  | nil => simpa [insertK] using h
  | cons b t ih =>
    by_cases hc : a.1 ≤ b.1
    · simpa [insertK, hc] using h
    · simp only [insertK, if_neg hc, List.mem_cons] at h
      rcases h with h | h
      · exact Or.inr (by simp [h])
      · rcases ih h with h1 | h1
        · exact Or.inl h1
        · exact Or.inr (by simp [h1])

theorem insertK_pairwise (a : ℕ × ℚ) (l : List (ℕ × ℚ))
    (h : l.Pairwise (fun p q => p.1 ≤ q.1)) :
    (insertK a l).Pairwise (fun p q => p.1 ≤ q.1) := by
  induction l with
  | nil => simp [insertK]
  | cons b t ih =>
    rw [List.pairwise_cons] at h
    obtain ⟨hb, ht⟩ := h
    by_cases hc : a.1 ≤ b.1
    · simp only [insertK, if_pos hc]
      rw [List.pairwise_cons, List.pairwise_cons]
      exact ⟨fun x hx => by
        rcases List.mem_cons.mp hx with rfl | hxt
        · exact hc
        · exact le_trans hc (hb x hxt), hb, ht⟩
    · simp only [insertK, if_neg hc]
      rw [List.pairwise_cons]
      refine ⟨fun x hx => ?_, ih ht⟩
      rcases insertK_mem a x t hx with rfl | hxt
      · omega
      · exact hb x hxt

theorem sortK_pairwise (l : List (ℕ × ℚ)) :
    (sortK l).Pairwise (fun p q => p.1 ≤ q.1) := by
  induction l with
  | nil => simp [sortK]
  | cons a t ih => exact insertK_pairwise a (sortK t) ih

theorem insertK_ne_nil (a : ℕ × ℚ) (l : List (ℕ × ℚ)) : insertK a l ≠ [] := by
  cases l with
  | nil => simp [insertK]
  | cons b t =>
    by_cases hc : a.1 ≤ b.1 <;> simp [insertK, hc]

theorem sortK_eq_nil_iff (l : List (ℕ × ℚ)) : sortK l = [] ↔ l = [] := by
  cases l with
  | nil => simp [sortK]
  | cons a t =>
    simp only [sortK]
    exact ⟨fun h => absurd h (insertK_ne_nil a (sortK t)), fun h => by simp at h⟩

theorem dedupFirst_sublist (seen : List ℕ) (l : List (ℕ × ℚ)) :
    (dedupFirst seen l).Sublist l := by
  induction l generalizing seen with
  | nil => simp [dedupFirst]
  | cons p t ih =>
    by_cases hc : p.1 ∈ seen
    · simp only [dedupFirst, if_pos hc]
      exact (ih seen).cons p
    · simp only [dedupFirst, if_neg hc]
      exact (ih (p.1 :: seen)).cons₂ p

theorem dedupFirst_fresh (seen : List ℕ) (l : List (ℕ × ℚ)) (p : ℕ × ℚ)
    (h : p ∈ dedupFirst seen l) : p.1 ∉ seen := by
  induction l generalizing seen with
  | nil => simp [dedupFirst] at h
  | cons q t ih =>
    by_cases hc : q.1 ∈ seen
    · exact ih seen (by simpa [dedupFirst, hc] using h)
    · simp only [dedupFirst, if_neg hc, List.mem_cons] at h
      rcases h with rfl | h
      · exact hc
      · have := ih (q.1 :: seen) h
        exact fun hs => this (List.mem_cons_of_mem _ hs)

theorem dedupFirst_keys_ne (seen : List ℕ) (l : List (ℕ × ℚ)) :
    (dedupFirst seen l).Pairwise (fun p q => p.1 ≠ q.1) := by
  induction l generalizing seen with
  | nil => simp [dedupFirst]
  | cons q t ih =>
    by_cases hc : q.1 ∈ seen
    · simpa [dedupFirst, hc] using ih seen
    · simp only [dedupFirst, if_neg hc]
      rw [List.pairwise_cons]
      refine ⟨fun x hx => ?_, ih (q.1 :: seen)⟩
      have := dedupFirst_fresh (q.1 :: seen) t x hx
      intro he
      exact this (by simp [he])

theorem pairwise_key_lt_of_le_ne (l : List (ℕ × ℚ))
    (hle : l.Pairwise (fun p q => p.1 ≤ q.1))
    (hne : l.Pairwise (fun p q => p.1 ≠ q.1)) :
    l.Pairwise (fun p q => p.1 < q.1) := by
  induction l with
  | nil => simp
  | cons a t ih =>
    rw [List.pairwise_cons] at hle hne ⊢
    exact ⟨fun x hx => lt_of_le_of_ne (hle.1 x hx) (hne.1 x hx), ih hle.2 hne.2⟩

theorem stunden_dedup_key_lt (ws : List Word) :
    (stunden_dedup ws).Pairwise (fun p q => p.1 < q.1) := by
  have hle : (stunden_dedup ws).Pairwise (fun p q => p.1 ≤ q.1) :=
    (sortK_pairwise (stunden_raw ws)).sublist
      (dedupFirst_sublist [] (stunden_sorted ws))
  exact pairwise_key_lt_of_le_ne _ hle (dedupFirst_keys_ne [] (stunden_sorted ws))

theorem mkBounds_map_fst (tb : ℚ) (prev : Option ℚ) (l : List (ℕ × ℚ)) :
    (mkBounds tb prev l).map (fun b => b.1) = l.map (fun p => p.1) := by
  induction l generalizing prev with
  | nil => simp [mkBounds]
  | cons p t ih => simpa [mkBounds] using ih (some p.2)

/-! ## Stability of the sort and first-occurrence dedup (for C3) -/

theorem insertK_filter_key (a : ℕ × ℚ) (l : List (ℕ × ℚ)) (k : ℕ) :
    (insertK a l).filter (fun q => decide (q.1 = k)) =
      if a.1 = k then a :: l.filter (fun q => decide (q.1 = k))
      else l.filter (fun q => decide (q.1 = k)) := by
  induction l with
  | nil =>
    by_cases hk : a.1 = k <;> simp [insertK, List.filter, hk]
  | cons b t ih =>
    by_cases hc : a.1 ≤ b.1
    · simp only [insertK, if_pos hc]
      by_cases hk : a.1 = k <;> by_cases hbk : b.1 = k <;>
        simp [List.filter_cons, hk, hbk]
    · have hblt : b.1 < a.1 := by omega
      simp only [insertK, if_neg hc]
      by_cases hk : a.1 = k
      · have hbk : ¬ b.1 = k := by omega
        simp [List.filter_cons, hk, hbk, ih]
      · by_cases hbk : b.1 = k <;> simp [List.filter_cons, hbk, ih, hk]

theorem sortK_filter_key (l : List (ℕ × ℚ)) (k : ℕ) :
    (sortK l).filter (fun q => decide (q.1 = k)) =
      l.filter (fun q => decide (q.1 = k)) := by
  induction l with
  | nil => simp [sortK]
  | cons a t ih =>
    simp only [sortK, insertK_filter_key, List.filter_cons]
    by_cases hk : a.1 = k <;> simp [hk, ih]

theorem find_eq_head_filter (l : List (ℕ × ℚ)) (pred : ℕ × ℚ → Bool) :
    l.find? pred = (l.filter pred).head? := by
  induction l with
  | nil => simp
  | cons a t ih =>
    by_cases ha : pred a = true
    · simp [List.find?_cons, List.filter_cons, ha]
    · simp only [List.find?_cons, List.filter_cons]
      rw [if_neg ha]
      simp only [ha, Bool.false_eq_true, if_false]
      exact ih

theorem dedupFirst_find (seen : List ℕ) (l : List (ℕ × ℚ)) (p : ℕ × ℚ)
    (h : p ∈ dedupFirst seen l) :
    l.find? (fun q => decide (q.1 = p.1)) = some p := by
  induction l generalizing seen with
  | nil => simp [dedupFirst] at h
  | cons q t ih =>
    by_cases hc : q.1 ∈ seen
    · have h1 : p ∈ dedupFirst seen t := by simpa [dedupFirst, hc] using h
      have hf := dedupFirst_fresh seen t p h1
      have hne : ¬ q.1 = p.1 := fun he => hf (he ▸ hc)
      simp only [List.find?_cons, decide_eq_true_eq, hne, if_false]
      simpa [hne] using ih seen h1
    · simp only [dedupFirst, if_neg hc, List.mem_cons] at h
      rcases h with rfl | h
      · simp [List.find?_cons]
      · have hf := dedupFirst_fresh (q.1 :: seen) t p h
        have hne : ¬ q.1 = p.1 := fun he => hf (by simp [he])
        simpa [List.find?_cons, hne] using ih (q.1 :: seen) h

/-! ## Row-span geometry (for C1) -/

/-- Membership of `y` in a row span `(nr, y0, y1)`: the half-open
interval `[y0, y1)` actually used by `_words_in_col`. -/
def memB (b : ℕ × ℚ × ℚ) (y : ℚ) : Prop :=
  b.2.1 ≤ y ∧ y < b.2.2

instance (b : ℕ × ℚ × ℚ) (y : ℚ) : Decidable (memB b y) :=
  inferInstanceAs (Decidable (b.2.1 ≤ y ∧ y < b.2.2))

/-- The spans produced by the boundary loop, reformulated with the
current span's start `s` made explicit (see `mkBounds_none_eq`). -/
def spansFrom (tb : ℚ) (s : ℚ) : List (ℕ × ℚ) → List (ℕ × ℚ × ℚ)
  | [] => []
  | [(n, _)] => [(n, s, tb)]
  | (n, t) :: (m, u) :: rest =>
    (n, s, qHalf (qAdd t u)) :: spansFrom tb (qHalf (qAdd t u)) ((m, u) :: rest)

theorem mkBounds_some_eq (tb : ℚ) (l : List (ℕ × ℚ)) :
    ∀ (n : ℕ) (t p : ℚ),
      mkBounds tb (some p) ((n, t) :: l) =
        spansFrom tb (qHalf (qAdd p t)) ((n, t) :: l) := by
  induction l with
  | nil => intro n t p; simp [mkBounds, spansFrom]
  | cons q rest ih =>
    intro n t p
    obtain ⟨m, u⟩ := q
    simp only [mkBounds, spansFrom]
    rw [← ih m u t]
    simp [mkBounds]

theorem mkBounds_none_eq (tb : ℚ) (l : List (ℕ × ℚ)) (n : ℕ) (t : ℚ) :
    mkBounds tb none ((n, t) :: l) = spansFrom tb (qSub t 30) ((n, t) :: l) := by
  cases l with
  | nil => simp [mkBounds, spansFrom]
  | cons q rest =>
    obtain ⟨m, u⟩ := q
    simp only [mkBounds, spansFrom]
    rw [← mkBounds_some_eq tb rest m u t]
    simp [mkBounds]

theorem spansFrom_head_start (tb s : ℚ) (m : ℕ) (u : ℚ) (l : List (ℕ × ℚ)) :
    ∃ e rest, spansFrom tb s ((m, u) :: l) = (m, s, e) :: rest := by
  cases l with
  | nil => exact ⟨tb, [], rfl⟩
  | cons q r =>
    obtain ⟨m2, u2⟩ := q
    exact ⟨qHalf (qAdd u u2), _, rfl⟩

/-- The core geometric fact: on anchors with strictly increasing
y-coordinates, all of them at or above the table bottom, the spans
starting at `s ≤ t₀` are contiguous, pairwise disjoint, and cover
exactly `[s, tb)`. -/
theorem spansFrom_props (tb : ℚ) (l : List (ℕ × ℚ)) :
    ∀ (s : ℚ) (n : ℕ) (t : ℚ),
      ((n, t) :: l).Pairwise (fun p q => p.2 < q.2) →
      s ≤ t →
      (∀ p ∈ (n, t) :: l, p.2 ≤ tb) →
      List.Chain' (fun b c => b.2.2 = c.2.1) (spansFrom tb s ((n, t) :: l)) ∧
      (spansFrom tb s ((n, t) :: l)).Pairwise
        (fun b c => ∀ y, ¬(memB b y ∧ memB c y)) ∧
      ∀ y, (∃ b ∈ spansFrom tb s ((n, t) :: l), memB b y) ↔ (s ≤ y ∧ y < tb) := by
  induction l with
  | nil =>
    intro s n t _ _ _
    refine ⟨List.chain'_singleton _, List.pairwise_singleton _ _, fun y => ?_⟩
    simp [spansFrom, memB]
  | cons q rest ih =>
    intro s n t hpw hst hall
    obtain ⟨m, u⟩ := q
    rw [List.pairwise_cons] at hpw
    obtain ⟨hhead, htail⟩ := hpw
    have htu : t < u := hhead (m, u) (List.mem_cons_self _ _)
    have hmid : qHalf (qAdd t u) = (t + u) / 2 := by rw [qAdd_eq, qHalf_eq]
    have hutb : u ≤ tb := hall (m, u) (by simp)
    have ht_mid : t < qHalf (qAdd t u) := by rw [hmid]; linarith
    have hmid_u : qHalf (qAdd t u) < u := by rw [hmid]; linarith
    have hmid_le : qHalf (qAdd t u) ≤ u := le_of_lt hmid_u
    obtain ⟨ihc, ihp, ihu⟩ :=
      ih (qHalf (qAdd t u)) m u htail hmid_le
        (fun p hp => hall p (List.mem_cons_of_mem _ hp))
    have hS : spansFrom tb s ((n, t) :: (m, u) :: rest) =
        (n, s, qHalf (qAdd t u)) :: spansFrom tb (qHalf (qAdd t u)) ((m, u) :: rest) :=
      rfl
    rw [hS]
    obtain ⟨e, rest2, hrest2⟩ := spansFrom_head_start tb (qHalf (qAdd t u)) m u rest
    refine ⟨?_, ?_, ?_⟩
    · rw [hrest2]
      rw [hrest2] at ihc
      exact List.Chain'.cons rfl ihc
    · rw [List.pairwise_cons]
      refine ⟨fun c hc y hy => ?_, ihp⟩
      obtain ⟨hy1, hy2⟩ := hy
      have h1 : y < qHalf (qAdd t u) := hy1.2
      have h2 : qHalf (qAdd t u) ≤ y := ((ihu y).mp ⟨c, hc, hy2⟩).1
      linarith
    · intro y
      constructor
      · rintro ⟨b, hb, hby⟩
        rcases List.mem_cons.mp hb with rfl | hb2
        · obtain ⟨h1, h2⟩ := hby
          have : qHalf (qAdd t u) < tb := lt_of_lt_of_le hmid_u hutb
          exact ⟨h1, by linarith⟩
        · have := (ihu y).mp ⟨b, hb2, hby⟩
          have hsm : s < qHalf (qAdd t u) := lt_of_le_of_lt hst ht_mid
          exact ⟨by linarith [this.1], this.2⟩
      · rintro ⟨h1, h2⟩
        by_cases hy : y < qHalf (qAdd t u)
        · exact ⟨(n, s, qHalf (qAdd t u)), by simp, h1, hy⟩
        · push_neg at hy
          obtain ⟨b, hb, hby⟩ := (ihu y).mpr ⟨hy, h2⟩
          exact ⟨b, List.mem_cons_of_mem _ hb, hby⟩

/-- The y-coordinate of the first (slot-sorted) anchor; 0 when there is
no anchor. -/
def firstAnchorTop (ws : List Word) : ℚ :=
  match stunden_dedup ws with
  | [] => 0
  | p :: _ => p.2

/-! ## Lemmas about `pySplit`, `pyStrip` and `joinC` (for C5) -/

theorem pySplitAux_all_ws (l : List Char) (hl : ∀ c ∈ l, isWs c = true) (acc : List Char) :
    pySplitAux acc l = pySplitAux acc [] := by
  induction l generalizing acc with
  | nil => rfl
  | cons c t ih =>
    have hc : isWs c = true := hl c (by simp)
    have ht : ∀ x ∈ t, isWs x = true := fun x hx => hl x (by simp [hx])
    by_cases ha : acc.isEmpty
    · simp only [pySplitAux, hc, if_true, ha]
      rw [ih ht []]
      simp [pySplitAux, ha]
    · simp only [pySplitAux, hc, if_true, ha]
      rw [ih ht []]
      simp [pySplitAux, ha]

theorem pySplitAux_append_ws (w : List Char) (hw : ∀ c ∈ w, isWs c = true)
    (l : List Char) (acc : List Char) :
    pySplitAux acc (l ++ w) = pySplitAux acc l := by
  induction l generalizing acc with
  | nil =>
    simp only [List.nil_append]
    exact pySplitAux_all_ws w hw acc
  | cons c t ih =>
    by_cases hc : isWs c <;> by_cases ha : acc.isEmpty <;>
      simp [pySplitAux, hc, ha, ih]

theorem pySplitAux_lead_ws (f : List Char) (hf : ∀ c ∈ f, isWs c = true)
    (l : List Char) :
    pySplitAux [] (f ++ l) = pySplitAux [] l := by
  induction f with
  | nil => rfl
  | cons c t ih =>
    have hc : isWs c = true := hf c (by simp)
    simp only [List.cons_append, pySplitAux, hc, if_true, List.isEmpty_nil]
    exact ih (fun x hx => hf x (by simp [hx]))

theorem pySplit_pyStrip (l : List Char) : pySplit (pyStrip l) = pySplit l := by
  have hdecomp : l = l.takeWhile isWs ++ l.dropWhile isWs :=
    (List.takeWhile_append_dropWhile isWs l).symm
  have h1 : pySplit l = pySplit (l.dropWhile isWs) := by
    conv_lhs => rw [pySplit, hdecomp]
    rw [pySplitAux_lead_ws _ (fun c hc => List.mem_takeWhile_imp hc)]
    rfl
  set core := l.dropWhile isWs with hcore
  have hrev : core = (core.reverse.dropWhile isWs).reverse
      ++ (core.reverse.takeWhile isWs).reverse := by
    conv_lhs => rw [← List.reverse_reverse core]
    conv_lhs => rw [← List.takeWhile_append_dropWhile isWs core.reverse]
    rw [List.reverse_append]
  have h2 : pySplit core = pySplit ((core.reverse.dropWhile isWs).reverse) := by
    conv_lhs => rw [pySplit, hrev]
    rw [pySplitAux_append_ws _ (fun c hc => by
      have := List.mem_reverse.mp hc
      exact List.mem_takeWhile_imp this)]
    rfl
  have hstrip : pyStrip l = (core.reverse.dropWhile isWs).reverse := by
    simp [pyStrip, hcore]
  rw [hstrip, h1, h2]

/-- All words produced by `pySplitAux` are nonempty and free of
whitespace characters. -/
theorem pySplitAux_good (l : List Char) :
    ∀ (acc : List Char), (∀ c ∈ acc, isWs c = false) →
    ∀ w ∈ pySplitAux acc l, w ≠ [] ∧ ∀ c ∈ w, isWs c = false := by
  induction l with
  | nil =>
    intro acc hacc w hw
    by_cases ha : acc.isEmpty
    · simp [pySplitAux, ha] at hw
    · simp only [pySplitAux, if_neg ha, List.mem_singleton] at hw
      subst hw
      constructor
      · simp only [ne_eq, List.reverse_eq_nil_iff]
        intro h
        rw [h] at ha
        simp at ha
      · intro c hc
        exact hacc c (List.mem_reverse.mp hc)
  | cons c t ih =>
    intro acc hacc w hw
    by_cases hc : isWs c
    · by_cases ha : acc.isEmpty
      · simp only [pySplitAux, hc, if_true, ha] at hw
        exact ih [] (by simp) w hw
      · simp only [pySplitAux, hc, if_true, if_neg ha, List.mem_cons] at hw
        rcases hw with h | hw
        · subst h
          constructor
          · simp only [ne_eq, List.reverse_eq_nil_iff]
            intro h
            rw [h] at ha
            simp at ha
          · intro x hx
            exact hacc x (List.mem_reverse.mp hx)
        · exact ih [] (by simp) w hw
    · simp only [pySplitAux, hc, if_false] at hw
      refine ih (c :: acc) ?_ w hw
      intro x hx
      rcases List.mem_cons.mp hx with rfl | hx
      · simpa using hc
      · exact hacc x hx

theorem pySplit_good (l : List Char) (w : List Char) (hw : w ∈ pySplit l) :
    w ≠ [] ∧ ∀ c ∈ w, isWs c = false :=
  pySplitAux_good l [] (by simp) w hw

theorem joinC_head_not_ws (ws : List (List Char))
    (hg : ∀ w ∈ ws, w ≠ [] ∧ ∀ c ∈ w, isWs c = false) (hne : ws ≠ []) :
    ∃ c t, joinC ws = c :: t ∧ isWs c = false := by
  match ws with
  | [] => exact absurd rfl hne
  | [w] =>
    obtain ⟨hw1, hw2⟩ := hg w (by simp)
    match w, hw1 with
    | c :: t, _ =>
      exact ⟨c, t, rfl, hw2 c (by simp)⟩
  | w :: w2 :: rest =>
    obtain ⟨hw1, hw2⟩ := hg w (by simp)
    match w, hw1 with
    | c :: t, _ =>
      exact ⟨c, t ++ ' ' :: joinC (w2 :: rest), rfl, hw2 c (by simp)⟩

theorem joinC_rev_head_not_ws (ws : List (List Char))
    (hg : ∀ w ∈ ws, w ≠ [] ∧ ∀ c ∈ w, isWs c = false) (hne : ws ≠ []) :
    ∃ c t, (joinC ws).reverse = c :: t ∧ isWs c = false := by
  match ws with
  | [] => exact absurd rfl hne
  | [w] =>
    obtain ⟨hw1, hw2⟩ := hg w (by simp)
    cases hr : w.reverse with
    | nil => exact absurd (List.reverse_eq_nil_iff.mp hr) hw1
    | cons c t =>
      refine ⟨c, t, by simp [joinC, hr], ?_⟩
      have : c ∈ w.reverse := by simp [hr]
      exact hw2 c (List.mem_reverse.mp this)
  | w :: w2 :: rest =>
    obtain ⟨c, t, hct, hcw⟩ := joinC_rev_head_not_ws (w2 :: rest)
      (fun x hx => hg x (List.mem_cons_of_mem _ hx)) (by simp)
    refine ⟨c, t ++ ' ' :: w.reverse, ?_, hcw⟩
    show (w ++ ' ' :: joinC (w2 :: rest)).reverse = c :: (t ++ ' ' :: w.reverse)
    rw [List.reverse_append, List.reverse_cons, hct]
    simp

theorem pyStrip_joinC_good (ws : List (List Char))
    (hg : ∀ w ∈ ws, w ≠ [] ∧ ∀ c ∈ w, isWs c = false) :
    pyStrip (joinC ws) = joinC ws := by
  cases hne : ws with
  | nil => rfl
  | cons w rest =>
    rw [← hne]
    have hne2 : ws ≠ [] := by simp [hne]
    obtain ⟨c, t, hct, hcw⟩ := joinC_head_not_ws ws hg hne2
    obtain ⟨c2, t2, hct2, hcw2⟩ := joinC_rev_head_not_ws ws hg hne2
    rw [pyStrip, hct, List.dropWhile_cons_of_neg (by simp [hcw]), ← hct]
    rw [hct2, List.dropWhile_cons_of_neg (by simp [hcw2]), ← hct2]
    simp

/-- The source's `_first_dozent` body coincides with the spec's Name
Splitter wording on every cleaned text (the redundant `.strip()` calls in
the source are no-ops). -/
theorem splitCore_eq_spec (text : List Char) : splitCore text = specNameSplit text := by
  by_cases h0 : text = []
  · simp [splitCore, specNameSplit, h0]
  · by_cases h1 : ',' ∈ text
    · simp only [splitCore, specNameSplit, if_neg h0, if_pos h1]
      rw [pySplit_pyStrip]
      have hgood : ∀ w ∈ (pySplit ((text.dropWhile (fun c => decide (c ≠ ','))).drop 1)).takeWhile
          (fun w => decide (w ≠ pyStrip (text.takeWhile (fun c => decide (c ≠ ','))))),
          w ≠ [] ∧ ∀ c ∈ w, isWs c = false := by
        intro w hw
        exact pySplit_good _ w ((List.takeWhile_sublist _).subset hw)
      rw [pyStrip_joinC_good _ hgood]
    · simp [splitCore, specNameSplit, h0, h1]

/-! ## Behaviour of `subD` on pure label text (for C6) -/

theorem subD_dz (rest : List Char) (hb : rightBd rest = true) :
    subD false ('D' :: 'o' :: 'z' :: 'e' :: 'n' :: 't' :: rest) = subD true rest := by
  simp [subD, hb]

theorem subD_space (l : List Char) : subD true (' ' :: l) = ' ' :: subD false l := by
  have h : isWordChar ' ' = false := by decide
  simp [subD, h]

theorem subD_join_dz : ∀ n : ℕ,
    subD false (joinC (List.replicate (n + 1) dzc)) = List.replicate n ' ' := by
  intro n
  induction n with
  | zero => decide
  | succ k ih =>
    have hjoin : joinC (List.replicate (k + 2) dzc) =
        'D' :: 'o' :: 'z' :: 'e' :: 'n' :: 't' :: ' ' :: joinC (List.replicate (k + 1) dzc) := by
      show joinC (dzc :: List.replicate (k + 1) dzc) = _
      cases hk : List.replicate (k + 1) dzc with
      | nil => simp at hk
      | cons w rest => simp [joinC, dzc]
    rw [hjoin, subD_dz _ (by simp [rightBd]; decide), subD_space, ih]
    rfl

theorem pyStrip_replicate_space (n : ℕ) : pyStrip (List.replicate n ' ') = [] := by
  have h : ∀ m : ℕ, (List.replicate m ' ').dropWhile isWs = [] := by
    intro m
    induction m with
    | zero => rfl
    | succ k ih =>
      simp only [List.replicate_succ, List.dropWhile_cons]
      rw [show isWs ' ' = true from rfl]
      simpa using ih
  simp [pyStrip, h]

theorem cleaned_all_dozent (raw : List String) (h : ∀ t ∈ raw, t = "Dozent") :
    cleanedDozentText raw = [] := by
  have hmap : raw.map String.data = List.replicate raw.length dzc := by
    induction raw with
    | nil => rfl
    | cons s t ih =>
      have hs : s = "Dozent" := h s (by simp)
      have ht := ih (fun x hx => h x (List.mem_cons_of_mem _ hx))
      simp only [List.map_cons, List.length_cons, List.replicate_succ, ht, hs]
      rfl
  rw [cleanedDozentText, hmap]
  cases hl : raw.length with
  | zero => rfl
  | succ k =>
    rw [subD_join_dz k, pyStrip_replicate_space]

/-! ## Concrete inputs used by the claim theorems -/

/-- Two anchors whose slot order disagrees with their vertical order:
slot 1 at y = 500, slot 2 at y = 100. -/
def cexWords1 : List Word := [⟨"1", 40, 500, 510⟩, ⟨"2", 40, 100, 110⟩]

/-- Two anchors in vertical order plus a content token fixing the table
bottom at 310. -/
def wWords1 : List Word := [⟨"1", 40, 100, 110⟩, ⟨"2", 40, 200, 210⟩, ⟨"x", 100, 300, 310⟩]

/-- Anchors encountered in the scrambled order 5, 1, 3. -/
def wWords2 : List Word := [⟨"5", 40, 500, 510⟩, ⟨"1", 40, 100, 110⟩, ⟨"3", 40, 300, 310⟩]

/-- The rows extracted from `wWords2`. -/
def wRows2 : List Row := [⟨1, "", "", ""⟩, ⟨3, "", "", ""⟩, ⟨5, "", "", ""⟩]

/-- The slot number 1 appears twice (y = 100 first, then y = 300). -/
def wWords3 : List Word := [⟨"1", 40, 100, 110⟩, ⟨"1", 40, 300, 310⟩, ⟨"2", 40, 200, 210⟩]

/-- An anchor and a denylist token (`"08:30"`) in the instructor band. -/
def cexWords4 : List Word := [⟨"1", 40, 100, 110⟩, ⟨"08:30", 460, 100, 110⟩]

/-- An anchor, a denylist token and a content token in the content band. -/
def wWords4 : List Word := [⟨"1", 40, 100, 110⟩, ⟨"Stunde", 100, 100, 110⟩, ⟨"Inhalt", 100, 101, 111⟩]

/-- The single row extracted from `wWords4`. -/
def wRow4 : Row := ⟨1, "Inhalt", "", ""⟩

/-- A token in the slot band whose text `"01"` is all digits with value 1,
but is not a single digit. -/
def cexWords9 : List Word := [⟨"01", 40, 100, 110⟩]

/-- The anchor notion as the claims word it: a token whose text is
exactly a single digit in [1, 9] with left-x inside the slot band. -/
def singleDigitAnchor (w : Word) : Bool :=
  decide (w.text.data.length = 1) && w.text.data.all Char.isDigit
    && decide (1 ≤ strNat w.text) && decide (strNat w.text ≤ 9)
    && decide (COL_STUNDE.1 ≤ w.x0) && decide (w.x0 < COL_STUNDE.2)

/-! ## Claim C1 -/

/-- Claim C1, counterexample: on `cexWords1` the slot order of the
anchors disagrees with their vertical order, and the computed row spans
do not partition `[first_anchor_y - 30, table_bottom)`: the point
y = 300 is covered by the span of slot 2 although it lies strictly below
`first_anchor_y - 30 = 470`. -/
theorem c1_counterexample :
    boundaries cexWords1 = [(1, 470, 300), (2, 300, 510)] ∧
    firstAnchorTop cexWords1 = 500 ∧
    table_bottom cexWords1 = 510 ∧
    ((2 : ℕ), (300 : ℚ), (510 : ℚ)) ∈ boundaries cexWords1 ∧
    memB (2, 300, 510) 300 ∧
    ¬(firstAnchorTop cexWords1 - 30 ≤ (300 : ℚ)) := by
  refine ⟨by decide, by decide, by decide, by decide, by decide, ?_⟩
  rw [show firstAnchorTop cexWords1 = 500 from by decide]
  norm_num

/-- Claim C1 (corrected): when at least one anchor is found and the
deduplicated anchors, ordered by slot number, have strictly increasing
y-coordinates, none of them below the computed table bottom, the row
spans computed by the Row Boundary Locator are contiguous (each span ends
where the next begins), pairwise non-overlapping, and together exactly
partition the half-open interval `[first_anchor_y - 30, table_bottom)` —
regardless of the order in which the anchor tokens were encountered.
(The original claim, without the monotonicity proviso, is refuted by
`c1_counterexample`.) -/
theorem c1_row_spans_partition (ws : List Word)
    (hne : stunden_dedup ws ≠ [])
    (hmono : (stunden_dedup ws).Pairwise (fun p q => p.2 < q.2))
    (hbot : ∀ p ∈ stunden_dedup ws, p.2 ≤ table_bottom ws) :
    List.Chain' (fun b c => b.2.2 = c.2.1) (boundaries ws) ∧
    (boundaries ws).Pairwise (fun b c => ∀ y : ℚ, ¬(memB b y ∧ memB c y)) ∧
    (∀ y : ℚ, (∃ b ∈ boundaries ws, memB b y) ↔
      (firstAnchorTop ws - 30 ≤ y ∧ y < table_bottom ws)) := by
  cases hsd : stunden_dedup ws with
  | nil => exact absurd hsd hne
  | cons p l =>
    obtain ⟨n, t⟩ := p
    rw [hsd] at hmono hbot
    have hboundary : boundaries ws =
        spansFrom (table_bottom ws) (qSub t 30) ((n, t) :: l) := by
      rw [boundaries, hsd, mkBounds_none_eq]
    have hs30 : qSub t 30 = t - 30 := qSub_eq t 30
    have hstart : qSub t 30 ≤ t := by rw [hs30]; linarith
    obtain ⟨hc, hp, hu⟩ :=
      spansFrom_props (table_bottom ws) l (qSub t 30) n t hmono hstart hbot
    have hf : firstAnchorTop ws = t := by
      unfold firstAnchorTop
      rw [hsd]
    refine ⟨by rw [hboundary]; exact hc, by rw [hboundary]; exact hp, fun y => ?_⟩
    have h5 := hu y
    conv_rhs at h5 => rw [hs30]
    rw [hboundary, hf]
    exact h5

/-- Claim C1, witness: `wWords1` satisfies the provisos, and its spans
partition `[70, 310)`. -/
theorem c1_row_spans_partition_witness :
    stunden_dedup wWords1 ≠ [] ∧
    (stunden_dedup wWords1).Pairwise (fun p q => p.2 < q.2) ∧
    (∀ p ∈ stunden_dedup wWords1, p.2 ≤ table_bottom wWords1) ∧
    (List.Chain' (fun b c => b.2.2 = c.2.1) (boundaries wWords1) ∧
     (boundaries wWords1).Pairwise (fun b c => ∀ y : ℚ, ¬(memB b y ∧ memB c y)) ∧
     (∀ y : ℚ, (∃ b ∈ boundaries wWords1, memB b y) ↔
       (firstAnchorTop wWords1 - 30 ≤ y ∧ y < table_bottom wWords1))) :=
  ⟨by decide, by decide, by decide,
   c1_row_spans_partition wWords1 (by decide) (by decide) (by decide)⟩

/-! ## Claim C2 -/

/-- Claim C2 (confirmed): whenever row extraction succeeds, the slot
numbers of the emitted rows are strictly increasing — in particular
unique and sorted ascending — whatever order the anchor tokens were
encountered in (the witness exercises anchors discovered in the order
5, 1, 3 and obtains rows 1, 3, 5). -/
theorem c2_rows_sorted_by_slot (ws : List Word) (rows : List Row)
    (h : parse_rows_from_page ws = .ok rows) :
    (rows.map Row.stunde).Pairwise (fun a b => a < b) := by
  simp only [parse_rows_from_page] at h
  by_cases hs : stunden_sorted ws = []
  · rw [if_pos hs] at h
    exact absurd h (by simp)
  · rw [if_neg hs] at h
    injection h with h2
    have h3 : rows.map Row.stunde = (stunden_dedup ws).map (fun p => p.1) := by
      rw [← h2, List.map_map]
      show (boundaries ws).map (fun b => b.1) = _
      rw [boundaries, mkBounds_map_fst]
    rw [h3, List.pairwise_map]
    exact stunden_dedup_key_lt ws

/-- Claim C2, witness: anchors encountered in the order 5, 1, 3 yield
rows with slot sequence `[1, 3, 5]`, strictly increasing. -/
theorem c2_rows_sorted_by_slot_witness :
    parse_rows_from_page wWords2 = .ok wRows2 ∧
    wRows2.map Row.stunde = [1, 3, 5] ∧
    (wRows2.map Row.stunde).Pairwise (fun a b => a < b) :=
  ⟨by decide, by decide, c2_rows_sorted_by_slot wWords2 wRows2 (by decide)⟩

/-! ## Claim C3 -/

/-- Claim C3 (confirmed): every anchor kept by the deduplication — whose
y-coordinate is exactly what the row-span computation uses — is the first
anchor with its slot number in the original token order: `find?` on the
raw (encounter-ordered) anchor list returns precisely the kept pair.
This holds because the sort is stable by key. -/
theorem c3_dedup_first_occurrence (ws : List Word) (p : ℕ × ℚ)
    (h : p ∈ stunden_dedup ws) :
    (stunden_raw ws).find? (fun q => decide (q.1 = p.1)) = some p := by
  have h1 : (stunden_sorted ws).find? (fun q => decide (q.1 = p.1)) = some p :=
    dedupFirst_find [] (stunden_sorted ws) p h
  rw [find_eq_head_filter] at h1 ⊢
  rw [stunden_sorted, sortK_filter_key] at h1
  exact h1

/-- Claim C3, witness: in `wWords3` the digit 1 occurs at y = 100 and
again at y = 300; the kept anchor is `(1, 100)`, the first occurrence in
token order, and the span base uses y = 100. -/
theorem c3_dedup_first_occurrence_witness :
    (1, (100 : ℚ)) ∈ stunden_dedup wWords3 ∧
    stunden_raw wWords3 = [(1, 100), (1, 300), (2, 200)] ∧
    boundaries wWords3 = [(1, 70, 150), (2, 150, 310)] ∧
    (stunden_raw wWords3).find? (fun q => decide (q.1 = 1)) = some (1, 100) :=
  ⟨by decide, by decide, by decide,
   c3_dedup_first_occurrence wWords3 (1, 100) (by decide)⟩

/-! ## Claim C4 -/

/-- Claim C4, counterexample: the denylist is applied only to the content
band.  On `cexWords4` the denylist entry `"08:30"` sits in the instructor
band and ends up verbatim as the row's instructor last name. -/
theorem c4_counterexample :
    parse_rows_from_page cexWords4 =
      .ok [{ stunde := 1, inhalt := "", dozent_vorname := "", dozent_nachname := "08:30" }] ∧
    "08:30" ∈ HEADER_NOISE :=
  ⟨by decide, by decide⟩

/-- Claim C4 (corrected): no token matching a denylist entry ever appears
among the words assembled into a row's content text; the instructor band,
however, is not filtered against the denylist (only whole-word `Dozent`
is removed from it), so denylist entries can appear in instructor text
(see `c4_counterexample`). -/
theorem c4_content_noise_filtered (ws : List Word) (rows : List Row) (r : Row)
    (hok : parse_rows_from_page ws = .ok rows) (hr : r ∈ rows) :
    ∃ b ∈ boundaries ws,
      r.inhalt = joinStr (inhalt_words ws b.2.1 b.2.2) ∧
      ∀ t ∈ inhalt_words ws b.2.1 b.2.2, t ∉ HEADER_NOISE := by
  simp only [parse_rows_from_page] at hok
  by_cases hs : stunden_sorted ws = []
  · rw [if_pos hs] at hok
    exact absurd hok (by simp)
  · rw [if_neg hs] at hok
    injection hok with h2
    rw [← h2] at hr
    obtain ⟨b, hb, hbr⟩ := List.mem_map.mp hr
    refine ⟨b, hb, ?_, ?_⟩
    · rw [← hbr]
      rfl
    · intro t ht
      rw [inhalt_words] at ht
      simpa using List.of_mem_filter ht

/-- Claim C4, witness: on `wWords4` the denylist entry `"Stunde"` sits in
the content band and is dropped; only `"Inhalt"` survives. -/
theorem c4_content_noise_filtered_witness :
    parse_rows_from_page wWords4 = .ok [wRow4] ∧
    (∃ b ∈ boundaries wWords4,
      wRow4.inhalt = joinStr (inhalt_words wWords4 b.2.1 b.2.2) ∧
      ∀ t ∈ inhalt_words wWords4 b.2.1 b.2.2, t ∉ HEADER_NOISE) :=
  ⟨by decide,
   c4_content_noise_filtered wWords4 [wRow4] wRow4 (by decide) (by decide)⟩

/-! ## Claim C5 -/

/-- Claim C5 (confirmed): on the joined instructor text after label
removal, the source's Name Splitter behaves exactly as the spec words it
(`specNameSplit`): with a comma, the last name is the text before the
first comma trimmed, and the first name is the words after the comma
truncated at the first word equal to the last name, joined with spaces;
without a comma, the last word is the last name and the preceding words
form the first name.  In particular
`split("Schmidt, Anna Schmidt") = ("Schmidt", "Anna")`. -/
theorem c5_name_splitter_spec :
    (∀ raw : List String, first_dozent raw = specNameSplit (cleanedDozentText raw)) ∧
    first_dozent ["Schmidt,", "Anna", "Schmidt"] = ("Schmidt", "Anna") :=
  ⟨fun raw => splitCore_eq_spec (cleanedDozentText raw), by decide⟩

/-! ## Claim C6 -/

/-- Claim C6, counterexample: the source removes `\bDozent\b` from the
joined string, not only tokens exactly equal to `"Dozent"`.  On the token
`"Dozent,"` (not exactly equal to the label) the source still strips the
`Dozent` part and returns `("", "")`, whereas the claimed token-level
removal (`specTokenNameSplit`) returns `("Dozent", "")`. -/
theorem c6_counterexample :
    first_dozent ["Dozent,"] = ("", "") ∧
    specTokenNameSplit ["Dozent,"] = ("Dozent", "") ∧
    first_dozent ["Dozent,"] ≠ specTokenNameSplit ["Dozent,"] :=
  ⟨by decide, by decide, by decide⟩

/-- Claim C6 (corrected): the Name Splitter is total — it always returns
a (last name, first name) pair — and it removes whole-word occurrences of
the label `Dozent` from the joined text (which in particular removes
every token exactly equal to `"Dozent"`, but can also strip `Dozent`
from tokens where it abuts punctuation, see `c6_counterexample`); when
nothing remains after removal it returns `("", "")`: here, a token list
consisting solely of `"Dozent"` tokens (including the empty list) yields
`("", "")`. -/
theorem c6_label_removal_empty (raw : List String)
    (h : ∀ t ∈ raw, t = "Dozent") :
    first_dozent raw = ("", "") := by
  rw [first_dozent, cleaned_all_dozent raw h]
  rfl

/-- Claim C6, witness: two `"Dozent"` tokens degrade to empty names. -/
theorem c6_label_removal_empty_witness :
    (∀ t ∈ (["Dozent", "Dozent"] : List String), t = "Dozent") ∧
    first_dozent ["Dozent", "Dozent"] = ("", "") :=
  ⟨by decide, c6_label_removal_empty ["Dozent", "Dozent"] (by decide)⟩

/-! ## Claim C7 -/

/-- Claim C7 (confirmed): the example header parses to the claimed
record: date `2024-03-05`, unit `LF12`, trimmed title `Grundlagen`, and
the range `2024-03-01` … `2024-04-05`, all converted to ISO form. -/
theorem c7_header_example :
    parse_header "Datum: 05.03.2024 ... Titel: LF12 Grundlagen 01.03.2024-05.04.2024" =
      .ok { datum := "2024-03-05", lernfeld_id := "LF12", titel := "Grundlagen",
            start_datum := some "2024-03-01", end_datum := some "2024-04-05" } ∧
    parse_date "05.03.2024".data = some "2024-03-05".data :=
  ⟨by decide, by decide⟩

/-! ## Claim C8 -/

/-- Claim C8, counterexample: on the empty text both patterns are absent,
and parsing fails with the date error, not the title error — so "title
pattern absent implies the title-missing failure" is false as stated. -/
theorem c8_counterexample :
    datumSearch "".data = none ∧
    titelSearch "".data = none ∧
    parse_header "" = .error .dateMissing ∧
    HeaderErr.dateMissing ≠ HeaderErr.titleMissing :=
  ⟨by decide, by decide, by decide, by decide⟩

/-- Claim C8 (corrected): when the date pattern is absent, header parsing
fails with the date-missing error; when the date pattern is present but
the title/unit-code pattern is absent, it fails with the title-missing
error (the date check runs first, see `c8_counterexample`); in either
case no header is returned — the result is an error, never a partial
record. -/
theorem c8_header_errors (text : String) :
    (datumSearch text.data = none → parse_header text = .error .dateMissing) ∧
    (datumSearch text.data ≠ none → titelSearch text.data = none →
      parse_header text = .error .titleMissing) := by
  constructor
  · intro h
    simp only [parse_header, h]
  · intro h1 h2
    cases hd : datumSearch text.data with
    | none => exact absurd hd h1
    | some d => simp only [parse_header, hd, h2]

/-- Claim C8, witness: a text with no `Datum:` fails date-missing; a text
with only the date fails title-missing. -/
theorem c8_header_errors_witness :
    parse_header "x" = .error .dateMissing ∧
    parse_header "Datum: 05.03.2024" = .error .titleMissing :=
  ⟨(c8_header_errors "x").1 (by decide),
   (c8_header_errors "Datum: 05.03.2024").2 (by decide) (by decide)⟩

/-! ## Claim C9 -/

/-- Claim C9, counterexample: the token `"01"` is not a single digit, so
under the claim's anchor notion this page has no anchor and should fail;
but `str.isdigit()` accepts it and `int("01") = 1` is in range, so the
source finds an anchor and emits a row instead of raising. -/
theorem c9_counterexample :
    cexWords9.all (fun w => !singleDigitAnchor w) = true ∧
    parse_rows_from_page cexWords9 =
      .ok [{ stunde := 1, inhalt := "", dozent_vorname := "", dozent_nachname := "" }] :=
  ⟨by decide, by decide⟩

/-- Claim C9 (corrected): the source's anchor condition accepts any
all-digit token whose integer value is in [1, 9] (e.g. `"01"`), not only
single digits.  With no such token, row extraction fails with the
no-rows error; with at least one such token, that failure is not
raised. -/
theorem c9_no_anchor_error (ws : List Word) :
    ((∀ w ∈ ws, anchorCond w = false) → parse_rows_from_page ws = .error .noRows) ∧
    ((∃ w ∈ ws, anchorCond w = true) → parse_rows_from_page ws ≠ .error .noRows) := by
  have hraw : stunden_raw ws = [] ↔ ∀ w ∈ ws, anchorCond w = false := by
    rw [stunden_raw, List.filterMap_eq_nil_iff]
    constructor
    · intro h w hw
      have h2 := h w hw
      by_cases hc : anchorCond w
      · rw [if_pos hc] at h2
        exact absurd h2 (by simp)
      · simpa using hc
    · intro h w hw
      simp [h w hw]
  constructor
  · intro h
    have h0 : stunden_sorted ws = [] := by
      rw [stunden_sorted, sortK_eq_nil_iff]
      exact hraw.mpr h
    simp only [parse_rows_from_page, if_pos h0]
  · rintro ⟨w, hw, hcond⟩ hcontra
    simp only [parse_rows_from_page] at hcontra
    by_cases h0 : stunden_sorted ws = []
    · rw [stunden_sorted, sortK_eq_nil_iff] at h0
      have h2 := hraw.mp h0 w hw
      rw [hcond] at h2
      exact absurd h2 (by simp)
    · rw [if_neg h0] at hcontra
      exact absurd hcontra (by simp)

/-- Claim C9, witness: a page with only the token `"x"` fails with the
no-rows error; a page with the anchor `"3"` does not. -/
theorem c9_no_anchor_error_witness :
    parse_rows_from_page [⟨"x", 40, 100, 110⟩] = .error .noRows ∧
    parse_rows_from_page [⟨"3", 40, 100, 110⟩] ≠ .error .noRows :=
  ⟨(c9_no_anchor_error [⟨"x", 40, 100, 110⟩]).1 (by decide),
   (c9_no_anchor_error [⟨"3", 40, 100, 110⟩]).2 ⟨⟨"3", 40, 100, 110⟩, by decide, by decide⟩⟩

/-! ## Claim C10 -/

/-- Claim C10 (confirmed): on a header whose date token matches the
`dd.mm.yyyy` digit pattern but is not a valid calendar date
(`31.02.2024`), parsing reaches the date conversion and fails with the
distinct conversion error — neither of the two specified typed failures
(date-missing / title-missing). -/
theorem c10_invalid_date_error :
    parse_header "Datum: 31.02.2024 Titel: LF12 Grundlagen" = .error .badDate ∧
    HeaderErr.badDate ≠ HeaderErr.dateMissing ∧
    HeaderErr.badDate ≠ HeaderErr.titleMissing :=
  ⟨by decide, by decide, by decide⟩

end Klassenbuch
